import Mathlib

/-!
Verification development for the OVS action-encoding layer declared in
`lib/ofp-actions.h`: the internal action-list data model (`struct ofpact`
records packed with 8-byte alignment, terminated by an `OFPACT_END`
sentinel), the compile-time action-type registry generated by
`DEFINE_OFPACT`, and the wire codec / validator / equality operations
declared in the header (`ofpacts_pull_openflow`, `ofpacts_to_openflow`,
`ofpacts_check`, `ofpacts_equal`, `ofpact_put`, `ofpact_update_len`).

The header is the only source file present; the bodies of the codec,
validator and equality functions (`ofp-actions.c`) are not in the
repository snapshot, so those operations are modelled from the
specification (each such definition carries a doc comment starting with
`Modelled from the spec:`).  Everything generated by macros in the header
itself (`OFPACTS`, `DEFINE_OFPACT`, `OFPACT_ALIGN`, `ofpact_next`,
`OFPACT_FOR_EACH`, `ofpact_get_<ENUM>`) is translated directly from the
header.

Bytes are modelled as natural numbers (meaningful values are `< 256`);
multi-byte wire scalars are big-endian per the OpenFlow wire format.
The wire model covers both dialects of spec section 6: base-dialect
entries (a 2-byte opcode and 2-byte length followed by the payload) and
Nicira vendor-extension entries (the reserved experimenter opcode, a
4-byte vendor identifier and a 2-byte sub-opcode before the payload),
including the variable-length bundle, learn and note actions with the
element-count consistency check of spec section 4.2 step 4.
-/

/-- The C macro `ROUND_UP(X, Y)`, rounding `x` up to a multiple of `y`. -/
def ROUND_UP (x y : Nat) : Nat := (x + y - 1) / y * y

/-- From `lib/ofp-actions.h`: `#define OFPACT_ALIGNTO 8`. -/
def OFPACT_ALIGNTO : Nat := 8

/-- From `lib/ofp-actions.h`: `#define OFPACT_ALIGN(SIZE) ROUND_UP(SIZE, OFPACT_ALIGNTO)`. -/
def OFPACT_ALIGN (size : Nat) : Nat := ROUND_UP size OFPACT_ALIGNTO

/-- The members of `enum ofpact_type`, one `OFPACT_<ENUM>` per
`DEFINE_OFPACT` invocation in the `OFPACTS` macro list of
`lib/ofp-actions.h` (lines 51-93), in source order. -/
inductive ofpact_type where
  | END
  | OUTPUT
  | CONTROLLER
  | ENQUEUE
  | OUTPUT_REG
  | BUNDLE
  | SET_VLAN_VID
  | SET_VLAN_PCP
  | STRIP_VLAN
  | SET_ETH_SRC
  | SET_ETH_DST
  | SET_IPV4_SRC
  | SET_IPV4_DST
  | SET_IPV4_DSCP
  | SET_L4_SRC_PORT
  | SET_L4_DST_PORT
  | REG_MOVE
  | REG_LOAD
  | DEC_TTL
  | SET_TUNNEL
  | SET_QUEUE
  | POP_QUEUE
  | FIN_TIMEOUT
  | RESUBMIT
  | LEARN
  | MULTIPATH
  | AUTOPATH
  | NOTE
  | EXIT
  deriving DecidableEq, Repr

/-- The `<STRUCT>` names appearing in the `OFPACTS` table: each is a
`struct ofpact_*` defined in `lib/ofp-actions.h`. -/
inductive ofpact_struct where
  | ofpact_null
  | ofpact_output
  | ofpact_controller
  | ofpact_enqueue
  | ofpact_output_reg
  | ofpact_bundle
  | ofpact_vlan_vid
  | ofpact_vlan_pcp
  | ofpact_mac
  | ofpact_ipv4
  | ofpact_dscp
  | ofpact_l4_port
  | ofpact_reg_move
  | ofpact_reg_load
  | ofpact_tunnel
  | ofpact_queue
  | ofpact_fin_timeout
  | ofpact_resubmit
  | ofpact_learn
  | ofpact_multipath
  | ofpact_autopath
  | ofpact_note
  deriving DecidableEq, Repr

/-- The `<MEMBER>` column of the `OFPACTS` table: `ofpact` for a
fixed-length action, otherwise the name of the flexible array member. -/
inductive ofpact_member where
  | ofpact
  | slaves
  | specs
  | data
  deriving DecidableEq, Repr

/-- One `DEFINE_OFPACT(ENUM, STRUCT, MEMBER)` invocation. -/
structure ofpact_def where
  enum : ofpact_type
  struct_name : ofpact_struct
  member : ofpact_member
  deriving DecidableEq, Repr

/-- The `OFPACTS` macro list of `lib/ofp-actions.h` lines 51-93, in
source order: every `DEFINE_OFPACT(ENUM, STRUCT, MEMBER)` invocation. -/
def OFPACTS : List ofpact_def :=
  [ ⟨.END,             .ofpact_null,        .ofpact⟩,
    ⟨.OUTPUT,          .ofpact_output,      .ofpact⟩,
    ⟨.CONTROLLER,      .ofpact_controller,  .ofpact⟩,
    ⟨.ENQUEUE,         .ofpact_enqueue,     .ofpact⟩,
    ⟨.OUTPUT_REG,      .ofpact_output_reg,  .ofpact⟩,
    ⟨.BUNDLE,          .ofpact_bundle,      .slaves⟩,
    ⟨.SET_VLAN_VID,    .ofpact_vlan_vid,    .ofpact⟩,
    ⟨.SET_VLAN_PCP,    .ofpact_vlan_pcp,    .ofpact⟩,
    ⟨.STRIP_VLAN,      .ofpact_null,        .ofpact⟩,
    ⟨.SET_ETH_SRC,     .ofpact_mac,         .ofpact⟩,
    ⟨.SET_ETH_DST,     .ofpact_mac,         .ofpact⟩,
    ⟨.SET_IPV4_SRC,    .ofpact_ipv4,        .ofpact⟩,
    ⟨.SET_IPV4_DST,    .ofpact_ipv4,        .ofpact⟩,
    ⟨.SET_IPV4_DSCP,   .ofpact_dscp,        .ofpact⟩,
    ⟨.SET_L4_SRC_PORT, .ofpact_l4_port,     .ofpact⟩,
    ⟨.SET_L4_DST_PORT, .ofpact_l4_port,     .ofpact⟩,
    ⟨.REG_MOVE,        .ofpact_reg_move,    .ofpact⟩,
    ⟨.REG_LOAD,        .ofpact_reg_load,    .ofpact⟩,
    ⟨.DEC_TTL,         .ofpact_null,        .ofpact⟩,
    ⟨.SET_TUNNEL,      .ofpact_tunnel,      .ofpact⟩,
    ⟨.SET_QUEUE,       .ofpact_queue,       .ofpact⟩,
    ⟨.POP_QUEUE,       .ofpact_null,        .ofpact⟩,
    ⟨.FIN_TIMEOUT,     .ofpact_fin_timeout, .ofpact⟩,
    ⟨.RESUBMIT,        .ofpact_resubmit,    .ofpact⟩,
    ⟨.LEARN,           .ofpact_learn,       .specs⟩,
    ⟨.MULTIPATH,       .ofpact_multipath,   .ofpact⟩,
    ⟨.AUTOPATH,        .ofpact_autopath,    .ofpact⟩,
    ⟨.NOTE,            .ofpact_note,        .data⟩,
    ⟨.EXIT,            .ofpact_null,        .ofpact⟩ ]

/-- N_OFPACTS, the number of values of `enum ofpact_type` (one `+ 1` per
`DEFINE_OFPACT` invocation). -/
def N_OFPACTS : Nat := OFPACTS.length

/-- From `DEFINE_OFPACT` in `lib/ofp-actions.h` (lines 446-449):
`OFPACT_<ENUM>_RAW_SIZE = offsetof(struct STRUCT, MEMBER) ?
offsetof(struct STRUCT, MEMBER) : sizeof(struct STRUCT)`.  The C struct
layouts live outside this translation unit, so the computation is
parameterized by an `offsetof` and a `sizeof` assignment for the structs
of the table. -/
def OFPACT_RAW_SIZE (off : ofpact_struct → ofpact_member → Nat)
    (sz : ofpact_struct → Nat) (e : ofpact_def) : Nat :=
  if off e.struct_name e.member ≠ 0 then off e.struct_name e.member
  else sz e.struct_name

/-- From `DEFINE_OFPACT` in `lib/ofp-actions.h` (lines 451-452):
`OFPACT_<ENUM>_SIZE = ROUND_UP(OFPACT_<ENUM>_RAW_SIZE, OFPACT_ALIGNTO)`. -/
def OFPACT_SIZE (off : ofpact_struct → ofpact_member → Nat)
    (sz : ofpact_struct → Nat) (e : ofpact_def) : Nat :=
  ROUND_UP (OFPACT_RAW_SIZE off sz e) OFPACT_ALIGNTO

/-- sizeof(struct ofpact): the header asserts
`BUILD_ASSERT_DECL(sizeof(struct ofpact) == 4)`. -/
def sizeof_struct_ofpact : Nat := 4

/-- The record header `struct ofpact` of `lib/ofp-actions.h` lines
115-120 (`type`, `compat`, `len`), extended with the record's payload
content bytes so a whole packed record is one value.  `len` is the
length of the action in bytes, including the 4-byte `struct ofpact`,
excluding padding; `compat` is the original wire action code the record
was decoded from (`enum ofputil_action_code`, modelled as the numeric
wire opcode); `payload` holds the content bytes following the header,
alignment padding excluded. -/
structure ofpact where
  type : ofpact_type
  compat : Nat
  len : Nat
  payload : List Nat
  deriving DecidableEq, Repr

/-- From `lib/ofp-actions.h` lines 131-135: `ofpact_next` advances a
record pointer by `OFPACT_ALIGN(ofpact->len)`; modelled on byte offsets. -/
def ofpact_next (ofs : Nat) (a : ofpact) : Nat := ofs + OFPACT_ALIGN a.len

/-- Start offsets of the records of a packed list, the first record
starting at `ofs`, each later one at `ofpact_next` of its predecessor. -/
def ofpact_offsets (ofs : Nat) : List ofpact → List Nat
  | [] => []
  | a :: rest => ofs :: ofpact_offsets (ofpact_next ofs a) rest

/-- From `lib/ofp-actions.h` lines 139-141: `OFPACT_FOR_EACH` visits
records in order, stopping at the first record of type `OFPACT_END`;
modelled as the list of visited records. -/
def ofpact_for_each : List ofpact → List ofpact
  | [] => []
  | a :: rest => if a.type = .END then [] else a :: ofpact_for_each rest

/-- The `OFPACT_END` sentinel record appended by the decoder: an
`struct ofpact_null` (header only, no extra data), length
`sizeof(struct ofpact)`. -/
def ofpact_end : ofpact :=
  { type := .END, compat := 0, len := sizeof_struct_ofpact, payload := [] }

/-- The decode/validation errors of `enum ofperr` used by this layer
(spec section 7 error taxonomy). -/
inductive ofperr where
  | OFPERR_OFPBAC_BAD_TYPE
  | OFPERR_OFPBAC_BAD_LEN
  | OFPERR_OFPBAC_BAD_ARGUMENT
  | OFPERR_OFPBAC_BAD_OUT_PORT
  | OFPERR_OFPBAC_TOO_MANY
  deriving DecidableEq, Repr

/-- Big-endian encoding of a 16-bit scalar as two bytes. -/
def be16 (n : Nat) : List Nat := [n / 256 % 256, n % 256]

/-- Big-endian read of a 16-bit scalar at byte index `i` of a byte list
(missing bytes read as zero). -/
def get16 (l : List Nat) (i : Nat) : Nat := l.getD i 0 * 256 + l.getD (i + 1) 0

/-- Big-endian encoding of a 32-bit scalar as four bytes. -/
def be32 (n : Nat) : List Nat :=
  [n / 16777216 % 256, n / 65536 % 256, n / 256 % 256, n % 256]

/-- Big-endian read of a 32-bit scalar at byte index `i` of a byte list
(missing bytes read as zero). -/
def get32 (l : List Nat) (i : Nat) : Nat :=
  l.getD i 0 * 16777216 + l.getD (i + 1) 0 * 65536
    + l.getD (i + 2) 0 * 256 + l.getD (i + 3) 0

/-- The reserved base-dialect opcode introducing a vendor-extension
(experimenter) action entry (`OFPAT10_VENDOR`, spec section 6). -/
def OFPAT_VENDOR : Nat := 0xffff

/-- The Nicira vendor identifier carried in the 4-byte vendor field of
an experimenter action entry (`NX_VENDOR_ID`). -/
def NX_VENDOR_ID : Nat := 0x00002320

/-- Numeric base used to encode a Nicira vendor sub-opcode into the
`compat` field, keeping it disjoint from the 16-bit base-dialect
opcodes: a vendor record's `compat` is `NXAST_CODE_BASE + sub-opcode`
(modelling the distinct `OFPUTIL_NXAST_*` values of
`enum ofputil_action_code`). -/
def NXAST_CODE_BASE : Nat := 0x10000

/-- The `compat` code recorded for a Nicira action decoded from vendor
sub-opcode `subtype`. -/
def nxast_code (subtype : Nat) : Nat := NXAST_CODE_BASE + subtype

/-- Modelled from the spec: the base-dialect (OpenFlow 1.0) wire-opcode
to internal-kind registry mapping consulted by the decoder
(`ofp-actions.c` is not in the repository snapshot).  Covers every
`OFPAT10_*` opcode named in the header's struct comments; the reserved
experimenter opcode `OFPAT_VENDOR` is dispatched separately through
`nxast_decode_table`, and opcodes outside either mapping decode to
`UnknownAction`. -/
def ofpat10_decode_table (opcode : Nat) : Option ofpact_type :=
  match opcode with
  | 0 => some .OUTPUT
  | 1 => some .SET_VLAN_VID
  | 2 => some .SET_VLAN_PCP
  | 3 => some .STRIP_VLAN
  | 4 => some .SET_ETH_SRC
  | 5 => some .SET_ETH_DST
  | 6 => some .SET_IPV4_SRC
  | 7 => some .SET_IPV4_DST
  | 8 => some .SET_IPV4_DSCP
  | 9 => some .SET_L4_SRC_PORT
  | 10 => some .SET_L4_DST_PORT
  | 11 => some .ENQUEUE
  | _ => none

/-- Modelled from the spec: the number of meaningful content bytes a
fixed-length kind carries after its dialect header (the 4-byte base
header, or the 10-byte vendor header of experimenter entries); the
rest of the 8-byte-aligned wire entry is zero padding.  Matches the
OpenFlow 1.0 and Nicira payloads named in the header's struct comments
(port+max_len for output, a 2-byte VLAN id, a 6-byte MAC, subfield
references for the register actions, and so on).  The sentinel and the
kinds without a single fixed content size (`SET_TUNNEL` with its two
historical wire widths, and the variable-length `BUNDLE`, `LEARN`,
`NOTE`) fall to the default and are handled by
`ofpact_payload_len_ok`. -/
def ofpact_content_size : ofpact_type → Nat
  | .OUTPUT => 4
  | .ENQUEUE => 12
  | .SET_VLAN_VID => 2
  | .SET_VLAN_PCP => 1
  | .STRIP_VLAN => 0
  | .SET_ETH_SRC => 6
  | .SET_ETH_DST => 6
  | .SET_IPV4_SRC => 4
  | .SET_IPV4_DST => 4
  | .SET_IPV4_DSCP => 1
  | .SET_L4_SRC_PORT => 2
  | .SET_L4_DST_PORT => 2
  | .CONTROLLER => 5
  | .OUTPUT_REG => 8
  | .RESUBMIT => 3
  | .SET_QUEUE => 6
  | .POP_QUEUE => 0
  | .FIN_TIMEOUT => 4
  | .REG_MOVE => 14
  | .REG_LOAD => 14
  | .MULTIPATH => 22
  | .AUTOPATH => 14
  | .DEC_TTL => 0
  | .EXIT => 0
  | _ => 0

/-- Wire layout of a Nicira vendor action, keyed by sub-opcode: a
fixed-length body of `csize` content bytes followed by trailing zero
padding (`fixed_nx`); an opaque variable-length tail occupying the
whole rest of the entry, as the note and learn actions carry
(`data_nx`, with the dialect's minimum entry length); or the bundle
shape (`slaves_nx`): a 22-byte fixed part holding an `n_slaves` count
field followed by `n_slaves` 16-bit slave ports and trailing zero
padding. -/
inductive wire_entry_layout where
  | fixed_nx (kind : ofpact_type) (csize : Nat)
  | data_nx (kind : ofpact_type) (min_len : Nat)
  | slaves_nx (kind : ofpact_type)
  deriving DecidableEq, Repr

/-- Modelled from the spec: the Nicira vendor sub-opcode registry
consulted by the decoder's two-level experimenter dispatch (spec
section 6; `ofp-actions.c` and `nicira-ext.h` are not in the
repository snapshot).  Covers the `NXAST_*` codes named in the
header's struct comments, including the variable-length bundle, learn
and note actions and the two historical tunnel-id widths
(`NXAST_SET_TUNNEL`, `NXAST_SET_TUNNEL64`) that map to the one
`SET_TUNNEL` kind; sub-opcodes outside the mapping decode to
`UnknownAction`. -/
def nxast_decode_table (subtype : Nat) : Option wire_entry_layout :=
  match subtype with
  | 1 => some (.fixed_nx .RESUBMIT 3)
  | 2 => some (.fixed_nx .SET_TUNNEL 6)
  | 4 => some (.fixed_nx .SET_QUEUE 6)
  | 5 => some (.fixed_nx .POP_QUEUE 0)
  | 6 => some (.fixed_nx .REG_MOVE 14)
  | 7 => some (.fixed_nx .REG_LOAD 14)
  | 8 => some (.data_nx .NOTE 16)
  | 9 => some (.fixed_nx .SET_TUNNEL 14)
  | 10 => some (.fixed_nx .MULTIPATH 22)
  | 11 => some (.fixed_nx .AUTOPATH 14)
  | 12 => some (.slaves_nx .BUNDLE)
  | 13 => some (.slaves_nx .BUNDLE)
  | 14 => some (.fixed_nx .RESUBMIT 3)
  | 15 => some (.fixed_nx .OUTPUT_REG 8)
  | 16 => some (.data_nx .LEARN 32)
  | 17 => some (.fixed_nx .EXIT 0)
  | 18 => some (.fixed_nx .DEC_TTL 0)
  | 19 => some (.fixed_nx .FIN_TIMEOUT 4)
  | 20 => some (.fixed_nx .CONTROLLER 5)
  | _ => none

/-- Modelled from the spec: decoding of one wire entry, given its
opcode, its claimed length (both already read from the 4-byte base
header) and the remaining bytes `body` after that header
(`ofp-actions.c` is not in the repository snapshot).  Per spec
sections 4.2 and 6: a non-experimenter opcode is looked up in the
base-dialect registry (`UnknownAction` when absent) and its claimed
length must equal the kind's aligned size (`BadActionLength`
otherwise); the experimenter opcode takes the two-level dispatch — the
entry must be long enough for the 10-byte vendor header, carry the
known vendor identifier and a registered sub-opcode (`UnknownAction`
otherwise), and then, by layout: a fixed-length vendor action's
claimed length must equal its aligned size (`BadActionLength`), an
opaque-tail action must meet its minimum length (`BadActionLength`),
and a bundle-shaped action's claimed length must agree with the
element count stored in its `n_slaves` field (`BadArgument` per spec
section 4.2 step 4).  The decoded record carries the kind, `compat` =
observed opcode or vendor sub-opcode, `len` = 4-byte internal header
plus content size excluding padding, and the content bytes. -/
def ofpacts_decode_entry (opcode wire_len : Nat) (body : List Nat) :
    Except ofperr ofpact :=
  if opcode = OFPAT_VENDOR then
    if 16 ≤ wire_len then
      if get32 body 0 = NX_VENDOR_ID then
        match nxast_decode_table (get16 body 4) with
        | none => .error .OFPERR_OFPBAC_BAD_TYPE
        | some (.fixed_nx kind csize) =>
          if wire_len = ROUND_UP (10 + csize) OFPACT_ALIGNTO then
            .ok { type := kind, compat := nxast_code (get16 body 4),
                  len := 4 + csize, payload := (body.drop 6).take csize }
          else .error .OFPERR_OFPBAC_BAD_LEN
        | some (.data_nx kind min_len) =>
          if min_len ≤ wire_len then
            .ok { type := kind, compat := nxast_code (get16 body 4),
                  len := 4 + (wire_len - 10),
                  payload := (body.drop 6).take (wire_len - 10) }
          else .error .OFPERR_OFPBAC_BAD_LEN
        | some (.slaves_nx kind) =>
          if 32 ≤ wire_len then
            if wire_len
                = 32 + ROUND_UP (2 * get16 (body.drop 6) 10) OFPACT_ALIGNTO then
              .ok { type := kind, compat := nxast_code (get16 body 4),
                    len := 4 + (22 + 2 * get16 (body.drop 6) 10),
                    payload := (body.drop 6).take (22 + 2 * get16 (body.drop 6) 10) }
            else .error .OFPERR_OFPBAC_BAD_ARGUMENT
          else .error .OFPERR_OFPBAC_BAD_LEN
      else .error .OFPERR_OFPBAC_BAD_TYPE
    else .error .OFPERR_OFPBAC_BAD_LEN
  else
    match ofpat10_decode_table opcode with
    | none => .error .OFPERR_OFPBAC_BAD_TYPE
    | some kind =>
      if wire_len = ROUND_UP (4 + ofpact_content_size kind) OFPACT_ALIGNTO then
        .ok { type := kind, compat := opcode,
              len := 4 + ofpact_content_size kind,
              payload := body.take (ofpact_content_size kind) }
      else .error .OFPERR_OFPBAC_BAD_LEN

/-- Modelled from the spec: the decode loop of `ofpacts_pull_openflow`
(`ofp-actions.c` is not in the repository snapshot).  Per spec section
4.2: read the 2-byte big-endian opcode and 2-byte big-endian entry
length; fail with `BadActionLength` when the claimed length is not
8-byte aligned, is shorter than one header-bearing entry, or exceeds
the remaining bytes; then decode the entry (`ofpacts_decode_entry`,
covering both the base dialect and the two-level experimenter
dispatch) and continue on the remaining bytes. -/
def ofpacts_decode_loop : Nat → List Nat → Except ofperr (List ofpact)
  | _, [] => .ok []
  | fuel + 1, b0 :: b1 :: b2 :: b3 :: body =>
    let opcode := b0 * 256 + b1
    let wire_len := b2 * 256 + b3
    if wire_len % 8 = 0 ∧ 8 ≤ wire_len ∧ wire_len ≤ 4 + body.length then
      match ofpacts_decode_entry opcode wire_len body with
      | .error e => .error e
      | .ok a =>
        match ofpacts_decode_loop fuel (body.drop (wire_len - 4)) with
        | .ok rest => .ok (a :: rest)
        | .error e => .error e
    else .error .OFPERR_OFPBAC_BAD_LEN
  | _ + 1, _ => .error .OFPERR_OFPBAC_BAD_LEN
  | 0, _ :: _ => .error .OFPERR_OFPBAC_BAD_LEN

/-- The decode loop started with enough fuel to consume the whole byte
range (every decoded entry is at least 8 bytes long, so `bytes.length`
steps always suffice; the fuel is a termination artifact only). -/
def ofpacts_decode (bytes : List Nat) : Except ofperr (List ofpact) :=
  ofpacts_decode_loop bytes.length bytes

/-- Modelled from the spec: `ofpacts_pull_openflow` (declared at
`lib/ofp-actions.h` lines 382-384; body not in the repository
snapshot).  Decodes the wire byte range and, per spec section 4.2 step
6, appends the `OFPACT_END` sentinel once the range is exhausted; a
decode failure returns only the error, exposing no partial list. -/
def ofpacts_pull_openflow (bytes : List Nat) : Except ofperr (List ofpact) :=
  match ofpacts_decode bytes with
  | .ok recs => .ok (recs ++ [ofpact_end])
  | .error e => .error e

/-- Modelled from the spec: serialization of one internal record back
to the wire entry of the dialect its `compat` tag records (part of
`ofpacts_to_openflow`, whose body is not in the repository snapshot).
Per spec sections 4.4 and 6: a base-dialect record emits its 2-byte
big-endian opcode, the 2-byte big-endian entry length (the record's
content length rounded up to the dialect's 8-byte alignment), the
content bytes, and zero padding up to the entry length; a vendor
record emits the experimenter opcode, the entry length, the 4-byte
vendor identifier, the 2-byte vendor sub-opcode selected by `compat`,
the content bytes (trailing elements of variable-length kinds in
internal order), and zero padding. -/
def ofpact_to_openflow (a : ofpact) : List Nat :=
  if a.compat < NXAST_CODE_BASE then
    be16 a.compat ++ be16 (OFPACT_ALIGN a.len) ++ a.payload
      ++ List.replicate (OFPACT_ALIGN a.len - 4 - a.payload.length) 0
  else
    be16 OFPAT_VENDOR ++ be16 (ROUND_UP (6 + a.len) OFPACT_ALIGNTO)
      ++ be32 NX_VENDOR_ID ++ be16 (a.compat - NXAST_CODE_BASE) ++ a.payload
      ++ List.replicate
          (ROUND_UP (6 + a.len) OFPACT_ALIGNTO - 10 - a.payload.length) 0

/-- Modelled from the spec: `ofpacts_to_openflow` (declared at
`lib/ofp-actions.h` line 389; body not in the repository snapshot).
Walks the internal action list the way `OFPACT_FOR_EACH` does,
re-serializing each record; the `OFPACT_END` sentinel is never
emitted. -/
def ofpacts_to_openflow : List ofpact → List Nat
  | [] => []
  | a :: rest =>
    if a.type = .END then []
    else ofpact_to_openflow a ++ ofpacts_to_openflow rest

/-- Canonical form of one accepted entry's body (the bytes after the
4-byte base header): keeps every header and content byte in place and
rewrites only the entry's trailing padding bytes to zero.  For a
base-dialect entry the kind's content bytes are kept and the rest of
the entry zeroed; for a vendor entry the 6-byte vendor header
(identifier and sub-opcode) is kept, then the content bytes (the whole
tail for opaque-tail kinds, the fixed part plus the slave elements for
bundle-shaped kinds), then zeroed padding. -/
def wire_canonical_body (opcode wire_len : Nat) (body : List Nat) : List Nat :=
  if opcode = OFPAT_VENDOR then
    match nxast_decode_table (get16 body 4) with
    | some (.fixed_nx _ csize) =>
      body.take 6 ++ (body.drop 6).take csize
        ++ List.replicate (wire_len - 10 - csize) 0
    | some (.data_nx _ _) => body.take (wire_len - 4)
    | some (.slaves_nx _) =>
      body.take 6 ++ (body.drop 6).take (22 + 2 * get16 (body.drop 6) 10)
        ++ List.replicate (wire_len - 10 - (22 + 2 * get16 (body.drop 6) 10)) 0
    | none => body.take (wire_len - 4)
  else
    match ofpat10_decode_table opcode with
    | some kind =>
      body.take (ofpact_content_size kind)
        ++ List.replicate (wire_len - 4 - ofpact_content_size kind) 0
    | none => body.take (wire_len - 4)

/-- Canonicalization of a wire action list: the identity on entry
headers and content bytes, rewriting only each entry's trailing
padding bytes to zero (`wire_canonical_body`).  Walks entries exactly
as the decoder does and leaves anything the decoder would reject
unchanged. -/
def wire_canonicalize_loop : Nat → List Nat → List Nat
  | _, [] => []
  | fuel + 1, b0 :: b1 :: b2 :: b3 :: body =>
    let opcode := b0 * 256 + b1
    let wire_len := b2 * 256 + b3
    if wire_len % 8 = 0 ∧ 8 ≤ wire_len ∧ wire_len ≤ 4 + body.length then
      match ofpacts_decode_entry opcode wire_len body with
      | .ok _ =>
        b0 :: b1 :: b2 :: b3 ::
          (wire_canonical_body opcode wire_len body
            ++ wire_canonicalize_loop fuel (body.drop (wire_len - 4)))
      | .error _ => b0 :: b1 :: b2 :: b3 :: body
    else b0 :: b1 :: b2 :: b3 :: body
  | _ + 1, short => short
  | 0, short => short

/-- The canonicalization walk started with enough fuel to consume the
whole byte range (the fuel is a termination artifact only). -/
def wire_canonicalize (bytes : List Nat) : List Nat :=
  wire_canonicalize_loop bytes.length bytes

/-- Consistency of a record's content length with its kind's registry
entry: fixed-length kinds carry exactly their registered content size;
`SET_TUNNEL` carries one of its two historical wire widths; the
opaque-tail kinds (`NOTE`, `LEARN`) carry any tail; a `BUNDLE` record's
trailing length must agree with the element count stored in its
`n_slaves` field (data-model invariant (1): the element count field
and the actual trailing element count agree). -/
def ofpact_payload_len_ok (a : ofpact) : Bool :=
  match a.type with
  | .SET_TUNNEL => a.payload.length == 6 || a.payload.length == 14
  | .NOTE => true
  | .LEARN => true
  | .BUNDLE => a.payload.length == 22 + 2 * get16 a.payload 10
  | k => a.payload.length == ofpact_content_size k

/-- Record-level well-formedness of a decoded non-sentinel record:
its kind is not the sentinel kind, its `len` counts the 4-byte header
plus the content bytes and excludes padding, and the content length is
consistent with the kind's registry entry (including the
element-count/length agreement of variable-length kinds). -/
def ofpact_record_wf (a : ofpact) : Bool :=
  a.type != .END && a.len == sizeof_struct_ofpact + a.payload.length
    && ofpact_payload_len_ok a

/-- Data-model invariants of a decoded action list (spec section 3):
the list ends with exactly one `OFPACT_END` sentinel, contains no
record after it, and every record before it is well-formed (in
particular not itself a sentinel). -/
def ofpacts_wf (acts : List ofpact) : Bool :=
  match acts.getLast? with
  | some last => last == ofpact_end && acts.dropLast.all ofpact_record_wf
  | none => false

/-- Modelled from the spec: record-level structural equality used by
`ofpacts_equal` (body not in the repository snapshot).  Per spec
section 4.5: identical kind and bit-for-bit identical content (`len`
and payload bytes); the `compat` wire-dialect tag and the alignment
padding (not part of `payload` in this model) are excluded. -/
def ofpact_record_equal (a b : ofpact) : Bool :=
  a.type == b.type && a.len == b.len && a.payload == b.payload

/-- The compat-erased view of a record: exactly the parts that
`ofpact_record_equal` compares. -/
def ofpact_strip_compat (a : ofpact) : ofpact_type × Nat × List Nat :=
  (a.type, a.len, a.payload)

/-- Modelled from the spec: `ofpacts_equal` (declared at
`lib/ofp-actions.h` lines 393-394; body not in the repository
snapshot).  Per spec section 4.5: true iff the two lists have the same
number of non-sentinel records and the records at each corresponding
position are structurally equal; ordering matters. -/
def ofpacts_equal (a b : List ofpact) : Bool :=
  let ra := ofpact_for_each a
  let rb := ofpact_for_each b
  ra.length == rb.length
    && (List.zip ra rb).all fun p => ofpact_record_equal p.1 p.2

/-- The smallest reserved logical port number of the base dialect
(`OFPP_IN_PORT`); ports from here up through `OFPP_NONE` (0xffff) are
the recognized reserved logical ports. -/
def OFPP_FIRST_RESERVED : Nat := 0xfff8

/-- Modelled from the spec: recognition of reserved logical ports by
the validator (spec section 4.3); the base dialect's reserved ports
`OFPP_IN_PORT` through `OFPP_NONE` occupy 0xfff8 - 0xffff. -/
def ofp_port_is_reserved (port : Nat) : Bool :=
  OFPP_FIRST_RESERVED ≤ port && port ≤ 0xffff

/-- The destination port of an `OFPACT_OUTPUT` record: the first
16-bit content scalar (`struct ofpact_output.port`). -/
def ofpact_output_port (a : ofpact) : Nat := get16 a.payload 0

/-- Modelled from the spec: the per-record legality rule applied by
`ofpacts_check` (body not in the repository snapshot).  Per spec
section 4.3, an output-type action's destination port must be below
`max_ports` or be a recognized reserved logical port, else
`BadOutPort`.  The context-dependent rules for subfield-referencing
kinds (register-move, register-load, multipath, autopath, learn,
resubmit) need the external flow/match-field model, which is outside
this repository snapshot; they are modelled as accepting. -/
def ofpact_check (max_ports : Nat) (a : ofpact) : Except ofperr Unit :=
  match a.type with
  | .OUTPUT =>
    if ofpact_output_port a < max_ports
        || ofp_port_is_reserved (ofpact_output_port a) then .ok ()
    else .error .OFPERR_OFPBAC_BAD_OUT_PORT
  | _ => .ok ()

/-- Modelled from the spec: `ofpacts_check` (declared at
`lib/ofp-actions.h` lines 385-386; body not in the repository
snapshot).  Walks every non-sentinel record, applies the kind-specific
rule, and short-circuits on the first violation. -/
def ofpacts_check : List ofpact → Nat → Except ofperr Unit
  | [], _ => .ok ()
  | a :: rest, max_ports =>
    if a.type = .END then .ok ()
    else
      match ofpact_check max_ports a with
      | .ok _ => ofpacts_check rest max_ports
      | .error e => .error e

/-- An `OFPACT_OUTPUT` record as built from a destination port and a
`max_len`, the two 16-bit fields of `struct ofpact_output`. -/
def mk_output (port max_len : Nat) : ofpact :=
  { type := .OUTPUT, compat := 0, len := 4 + ofpact_content_size .OUTPUT,
    payload := be16 port ++ be16 max_len }

/-- Modelled from the spec: the byte buffer the Builder helpers
operate on (`struct ofpbuf`; body of the helpers not in the repository
snapshot), abstracted to the quantities the length-fixup discipline
reads and writes: the buffer's used size, the start offset `l2` of the
most recently appended action, and the `len` field currently stored in
that action's header. -/
structure ofpbuf where
  size : Nat
  l2 : Nat
  act_len : Nat
  deriving DecidableEq, Repr

/-- Modelled from the spec: `ofpact_put` (declared at
`lib/ofp-actions.h` line 403; body not in the repository snapshot),
as used by each generated `ofpact_put_<ENUM>`: pads the buffer to the
8-byte record alignment, appends a zero-initialized fixed part of
`len` bytes whose header `len` field is set to `len`, and records the
new action's start offset in `l2`. -/
def ofpact_put (b : ofpbuf) (len : Nat) : ofpbuf :=
  let start := OFPACT_ALIGN b.size
  { size := start + len, l2 := start, act_len := len }

/-- From `DEFINE_OFPACT` in `lib/ofp-actions.h` (lines 461-466):
`ofpact_put_<ENUM>` appends a new action of length
`OFPACT_<ENUM>_RAW_SIZE`. -/
def ofpact_put_ENUM (off : ofpact_struct → ofpact_member → Nat)
    (sz : ofpact_struct → Nat) (e : ofpact_def) (b : ofpbuf) : ofpbuf :=
  ofpact_put b (OFPACT_RAW_SIZE off sz e)

/-- Modelled from the spec: `ofpbuf_put`, the byte-buffer append used
to add a variable-length action's trailing elements (`n` bytes) after
its fixed part. -/
def ofpbuf_put (b : ofpbuf) (n : Nat) : ofpbuf := { b with size := b.size + n }

/-- Modelled from the spec: `ofpact_update_len` (declared at
`lib/ofp-actions.h` line 477; body not in the repository snapshot).
Per spec section 4.7, the fixup recomputes the action's `len` field as
the distance from the action's start (`l2`) to the buffer's current
end. -/
def ofpact_update_len (b : ofpbuf) : ofpbuf := { b with act_len := b.size - b.l2 }

/-- From `DEFINE_OFPACT` in `lib/ofp-actions.h` (lines 454-459):
`ofpact_get_<ENUM>` asserts `ofpact->type == OFPACT_<ENUM>` and returns
the record cast to `struct <STRUCT> *`.  The assertion is modelled as
the `none` branch; the successful cast returns the record itself (the
cast is a view change, not a data change). -/
def ofpact_get_ENUM (k : ofpact_type) (a : ofpact) : Option ofpact :=
  if a.type = k then some a else none

/-- A sample `offsetof` assignment for the structs of the `OFPACTS`
table, used to instantiate the layout-parameterized registry: the
`ofpact` header member sits at offset 0 (as the header's
`BUILD_ASSERT_DECL(offsetof(struct STRUCT, ofpact) == 0)` requires)
and each flexible array member sits at a positive offset after the
fixed fields. -/
def sample_offsetof (s : ofpact_struct) (m : ofpact_member) : Nat :=
  match s, m with
  | _, .ofpact => 0
  | _, .slaves => 24
  | _, .specs => 24
  | _, .data => 16

/-- A sample `sizeof` assignment for the structs of the `OFPACTS`
table, used to instantiate the layout-parameterized registry. -/
def sample_sizeof (s : ofpact_struct) : Nat :=
  match s with
  | .ofpact_null => 4
  | _ => 16

/-! ### Helper lemmas about alignment and byte encoding -/

lemma ROUND_UP_ge (n : Nat) : n ≤ ROUND_UP n OFPACT_ALIGNTO := by
  simp only [ROUND_UP, OFPACT_ALIGNTO]
  omega

lemma ROUND_UP_mod (n : Nat) : ROUND_UP n OFPACT_ALIGNTO % 8 = 0 := by
  simp only [ROUND_UP, OFPACT_ALIGNTO]
  exact Nat.mul_mod_left _ _

lemma ROUND_UP_lt (n : Nat) : ROUND_UP n OFPACT_ALIGNTO < n + 8 := by
  simp only [ROUND_UP, OFPACT_ALIGNTO]
  omega

lemma ROUND_UP_eq_self {n : Nat} (h : n % 8 = 0) :
    ROUND_UP n OFPACT_ALIGNTO = n := by
  simp only [ROUND_UP, OFPACT_ALIGNTO]
  omega

lemma ROUND_UP_add_left {a b : Nat} (h : a % 8 = 0) :
    ROUND_UP (a + b) OFPACT_ALIGNTO = a + ROUND_UP b OFPACT_ALIGNTO := by
  simp only [ROUND_UP, OFPACT_ALIGNTO]
  omega

lemma be16_pair (b0 b1 : Nat) (h0 : b0 < 256) (h1 : b1 < 256) :
    be16 (b0 * 256 + b1) = [b0, b1] := by
  have ha : (b0 * 256 + b1) / 256 % 256 = b0 := by omega
  have hb : (b0 * 256 + b1) % 256 = b1 := by omega
  simp [be16, ha, hb]

lemma be32_quad (v0 v1 v2 v3 : Nat) (h0 : v0 < 256) (h1 : v1 < 256)
    (h2 : v2 < 256) (h3 : v3 < 256) :
    be32 (v0 * 16777216 + v1 * 65536 + v2 * 256 + v3) = [v0, v1, v2, v3] := by
  have a0 : (v0 * 16777216 + v1 * 65536 + v2 * 256 + v3) / 16777216 % 256 = v0 := by
    omega
  have a1 : (v0 * 16777216 + v1 * 65536 + v2 * 256 + v3) / 65536 % 256 = v1 := by
    omega
  have a2 : (v0 * 16777216 + v1 * 65536 + v2 * 256 + v3) / 256 % 256 = v2 := by
    omega
  have a3 : (v0 * 16777216 + v1 * 65536 + v2 * 256 + v3) % 256 = v3 := by omega
  simp [be32, a0, a1, a2, a3]

lemma getD_take : ∀ (l : List Nat) (k i : Nat), i < k →
    (l.take k).getD i 0 = l.getD i 0 := by
  intro l
  induction l with
  | nil => intro k i _; simp
  | cons a t ih =>
    intro k i h
    match k, i with
    | k + 1, 0 => simp
    | k + 1, i + 1 =>
      simp only [List.take_succ_cons, List.getD_cons_succ]
      exact ih k i (by omega)

lemma get16_take {l : List Nat} {k i : Nat} (h : i + 1 < k) :
    get16 (l.take k) i = get16 l i := by
  simp only [get16, getD_take l k i (by omega), getD_take l k (i + 1) h]

lemma nx_header_take6 (body : List Nat) (h6 : 6 ≤ body.length)
    (hb : ∀ x ∈ body, x < 256) :
    be32 (get32 body 0) ++ be16 (get16 body 4) = body.take 6 := by
  match body with
  | v0 :: v1 :: v2 :: v3 :: s0 :: s1 :: rest =>
    have hv0 : v0 < 256 := hb _ (by simp)
    have hv1 : v1 < 256 := hb _ (by simp)
    have hv2 : v2 < 256 := hb _ (by simp)
    have hv3 : v3 < 256 := hb _ (by simp)
    have hs0 : s0 < 256 := hb _ (by simp)
    have hs1 : s1 < 256 := hb _ (by simp)
    have hg32 : get32 (v0 :: v1 :: v2 :: v3 :: s0 :: s1 :: rest) 0
        = v0 * 16777216 + v1 * 65536 + v2 * 256 + v3 := by
      simp [get32]
    have hg16 : get16 (v0 :: v1 :: v2 :: v3 :: s0 :: s1 :: rest) 4
        = s0 * 256 + s1 := by
      simp [get16]
    rw [hg32, hg16, be32_quad _ _ _ _ hv0 hv1 hv2 hv3, be16_pair _ _ hs0 hs1]
    simp
  | [] => simp at h6
  | [_] => simp at h6
  | [_, _] => simp at h6
  | [_, _, _] => simp at h6
  | [_, _, _, _] => simp at h6
  | [_, _, _, _, _] => simp at h6

lemma decode_table_not_end (op : Nat) (k : ofpact_type)
    (h : ofpat10_decode_table op = some k) : k ≠ .END := by
  unfold ofpat10_decode_table at h
  split at h <;> simp_all <;> intro hc <;> simp [hc] at h

lemma ofpat10_table_lt {op : Nat} {k : ofpact_type}
    (h : ofpat10_decode_table op = some k) : op < 12 := by
  unfold ofpat10_decode_table at h
  split at h <;> first | omega | cases h

lemma ofpat10_table_payload_ok (op : Nat) (k : ofpact_type) (cc nn : Nat)
    (pl : List Nat) (h : ofpat10_decode_table op = some k)
    (hl : pl.length = ofpact_content_size k) :
    ofpact_payload_len_ok { type := k, compat := cc, len := nn, payload := pl }
      = true := by
  unfold ofpat10_decode_table at h
  split at h <;> cases h <;>
    simp [ofpact_payload_len_ok, ofpact_content_size, hl]

lemma nxast_table_fixed_ok (st : Nat) (k : ofpact_type) (c cc nn : Nat)
    (pl : List Nat) (h : nxast_decode_table st = some (.fixed_nx k c))
    (hl : pl.length = c) :
    k ≠ .END ∧
    ofpact_payload_len_ok { type := k, compat := cc, len := nn, payload := pl }
      = true := by
  unfold nxast_decode_table at h
  split at h <;> cases h <;>
    simp [ofpact_payload_len_ok, ofpact_content_size, hl]

lemma nxast_table_data_ok (st : Nat) (k : ofpact_type) (m cc nn : Nat)
    (pl : List Nat) (h : nxast_decode_table st = some (.data_nx k m)) :
    k ≠ .END ∧
    ofpact_payload_len_ok { type := k, compat := cc, len := nn, payload := pl }
      = true := by
  unfold nxast_decode_table at h
  split at h <;> cases h <;> simp [ofpact_payload_len_ok]

lemma nxast_table_slaves_kind (st : Nat) (k : ofpact_type)
    (h : nxast_decode_table st = some (.slaves_nx k)) : k = .BUNDLE := by
  unfold nxast_decode_table at h
  split at h <;> cases h
  rfl
  rfl

lemma take_len_of_le {l : List Nat} {c : Nat} (h : c ≤ l.length) :
    (l.take c).length = c := by
  simp [List.length_take]
  omega

/-! ### Per-entry decoder correctness -/

lemma ofpacts_decode_entry_wf (opcode wire_len : Nat) (body : List Nat)
    (a : ofpact)
    (hgate : wire_len % 8 = 0 ∧ 8 ≤ wire_len ∧ wire_len ≤ 4 + body.length)
    (h : ofpacts_decode_entry opcode wire_len body = .ok a) :
    ofpact_record_wf a = true := by
  unfold ofpacts_decode_entry at h
  by_cases hv : opcode = OFPAT_VENDOR
  · rw [if_pos hv] at h
    by_cases h16 : 16 ≤ wire_len
    · rw [if_pos h16] at h
      by_cases hvid : get32 body 0 = NX_VENDOR_ID
      · rw [if_pos hvid] at h
        split at h
        next htab => cases h
        next kind csize htab =>
          by_cases hsz : wire_len = ROUND_UP (10 + csize) OFPACT_ALIGNTO
          · rw [if_pos hsz] at h
            simp only [Except.ok.injEq] at h
            subst h
            have hge := ROUND_UP_ge (10 + csize)
            have hcs : csize ≤ (body.drop 6).length := by
              simp only [List.length_drop]
              omega
            have htl := take_len_of_le hcs
            obtain ⟨hkend, hplok⟩ :=
              nxast_table_fixed_ok _ kind csize (nxast_code (get16 body 4))
                (4 + csize) _ htab htl
            simp [ofpact_record_wf, sizeof_struct_ofpact, hkend, htl, hplok]
          · rw [if_neg hsz] at h; cases h
        next kind min_len htab =>
          by_cases hml : min_len ≤ wire_len
          · rw [if_pos hml] at h
            simp only [Except.ok.injEq] at h
            subst h
            have hcs : wire_len - 10 ≤ (body.drop 6).length := by
              simp only [List.length_drop]
              omega
            have htl := take_len_of_le hcs
            obtain ⟨hkend, hplok⟩ :=
              nxast_table_data_ok _ kind min_len (nxast_code (get16 body 4))
                (4 + (wire_len - 10)) ((body.drop 6).take (wire_len - 10)) htab
            simp [ofpact_record_wf, sizeof_struct_ofpact, hkend, htl, hplok]
          · rw [if_neg hml] at h; cases h
        next kind htab =>
          by_cases h32 : 32 ≤ wire_len
          · rw [if_pos h32] at h
            by_cases hsz : wire_len
                = 32 + ROUND_UP (2 * get16 (body.drop 6) 10) OFPACT_ALIGNTO
            · rw [if_pos hsz] at h
              simp only [Except.ok.injEq] at h
              subst h
              have hknd := nxast_table_slaves_kind _ kind htab
              subst hknd
              have hge := ROUND_UP_ge (2 * get16 (body.drop 6) 10)
              have hcs : 22 + 2 * get16 (body.drop 6) 10
                  ≤ (body.drop 6).length := by
                simp only [List.length_drop]
                omega
              have htl := take_len_of_le hcs
              have hg : get16
                    ((body.drop 6).take (22 + 2 * get16 (body.drop 6) 10)) 10
                  = get16 (body.drop 6) 10 := get16_take (by omega)
              simp [ofpact_record_wf, sizeof_struct_ofpact,
                ofpact_payload_len_ok, htl, hg]
            · rw [if_neg hsz] at h; cases h
          · rw [if_neg h32] at h; cases h
      · rw [if_neg hvid] at h; cases h
    · rw [if_neg h16] at h; cases h
  · rw [if_neg hv] at h
    split at h
    next htab => cases h
    next kind htab =>
      by_cases hsz : wire_len
          = ROUND_UP (4 + ofpact_content_size kind) OFPACT_ALIGNTO
      · rw [if_pos hsz] at h
        simp only [Except.ok.injEq] at h
        subst h
        have hge := ROUND_UP_ge (4 + ofpact_content_size kind)
        have hcs : ofpact_content_size kind ≤ body.length := by omega
        have htl := take_len_of_le hcs
        have hkend := decode_table_not_end _ _ htab
        have hplok := ofpat10_table_payload_ok _ _ opcode
          (4 + ofpact_content_size kind) _ htab htl
        simp [ofpact_record_wf, sizeof_struct_ofpact, hkend, htl, hplok]
      · rw [if_neg hsz] at h; cases h

lemma ofpacts_decode_entry_encode (opcode wire_len : Nat) (body : List Nat)
    (a : ofpact)
    (hgate : wire_len % 8 = 0 ∧ 8 ≤ wire_len ∧ wire_len ≤ 4 + body.length)
    (hb : ∀ x ∈ body, x < 256)
    (h : ofpacts_decode_entry opcode wire_len body = .ok a) :
    ofpact_to_openflow a
      = be16 opcode ++ be16 wire_len
          ++ wire_canonical_body opcode wire_len body ∧
    (wire_canonical_body opcode wire_len body).length = wire_len - 4 := by
  unfold ofpacts_decode_entry at h
  by_cases hv : opcode = OFPAT_VENDOR
  · rw [if_pos hv] at h
    by_cases h16 : 16 ≤ wire_len
    · rw [if_pos h16] at h
      by_cases hvid : get32 body 0 = NX_VENDOR_ID
      · rw [if_pos hvid] at h
        have h6 : 6 ≤ body.length := by omega
        have ht6 : (body.take 6).length = 6 := take_len_of_le h6
        have hnx := nx_header_take6 body h6 hb
        split at h
        next htab => cases h
        next kind csize htab =>
          by_cases hsz : wire_len = ROUND_UP (10 + csize) OFPACT_ALIGNTO
          · rw [if_pos hsz] at h
            simp only [Except.ok.injEq] at h
            subst h
            have hge := ROUND_UP_ge (10 + csize)
            have hcs : csize ≤ (body.drop 6).length := by
              simp only [List.length_drop]
              omega
            have htl := take_len_of_le hcs
            have harith : 6 + (4 + csize) = 10 + csize := by omega
            have hsub : nxast_code (get16 body 4) - NXAST_CODE_BASE
                = get16 body 4 := by
              simp [nxast_code]
            have hnlt : ¬nxast_code (get16 body 4) < NXAST_CODE_BASE := by
              simp [nxast_code]
            constructor
            · simp only [ofpact_to_openflow]
              rw [if_neg hnlt]
              simp only [wire_canonical_body]
              rw [if_pos hv]
              simp only [htab]
              rw [← hnx, ← hv, hvid, hsub, harith, ← hsz, htl]
              simp [List.append_assoc]
            · simp only [wire_canonical_body]
              rw [if_pos hv]
              simp only [htab]
              simp only [List.length_append, ht6, htl, List.length_replicate]
              omega
          · rw [if_neg hsz] at h; cases h
        next kind min_len htab =>
          by_cases hml : min_len ≤ wire_len
          · rw [if_pos hml] at h
            simp only [Except.ok.injEq] at h
            subst h
            have hcs : wire_len - 10 ≤ (body.drop 6).length := by
              simp only [List.length_drop]
              omega
            have htl := take_len_of_le hcs
            have harith : 6 + (4 + (wire_len - 10)) = wire_len := by omega
            have hsub : nxast_code (get16 body 4) - NXAST_CODE_BASE
                = get16 body 4 := by
              simp [nxast_code]
            have hnlt : ¬nxast_code (get16 body 4) < NXAST_CODE_BASE := by
              simp [nxast_code]
            have hsplit : wire_len - 4 = 6 + (wire_len - 10) := by omega
            constructor
            · simp only [ofpact_to_openflow]
              rw [if_neg hnlt]
              simp only [wire_canonical_body]
              rw [if_pos hv]
              simp only [htab]
              rw [hsplit, List.take_add, ← hnx, ← hv, hvid, hsub, harith,
                ROUND_UP_eq_self hgate.1, htl]
              simp [List.append_assoc]
            · simp only [wire_canonical_body]
              rw [if_pos hv]
              simp only [htab]
              simp only [List.length_take, List.length_drop]
              omega
          · rw [if_neg hml] at h; cases h
        next kind htab =>
          by_cases h32 : 32 ≤ wire_len
          · rw [if_pos h32] at h
            by_cases hsz : wire_len
                = 32 + ROUND_UP (2 * get16 (body.drop 6) 10) OFPACT_ALIGNTO
            · rw [if_pos hsz] at h
              simp only [Except.ok.injEq] at h
              subst h
              have hge := ROUND_UP_ge (2 * get16 (body.drop 6) 10)
              have hcs : 22 + 2 * get16 (body.drop 6) 10
                  ≤ (body.drop 6).length := by
                simp only [List.length_drop]
                omega
              have htl := take_len_of_le hcs
              have harith : 6 + (4 + (22 + 2 * get16 (body.drop 6) 10))
                  = 32 + 2 * get16 (body.drop 6) 10 := by omega
              have hsub : nxast_code (get16 body 4) - NXAST_CODE_BASE
                  = get16 body 4 := by
                simp [nxast_code]
              have hnlt : ¬nxast_code (get16 body 4) < NXAST_CODE_BASE := by
                simp [nxast_code]
              constructor
              · simp only [ofpact_to_openflow]
                rw [if_neg hnlt]
                simp only [wire_canonical_body]
                rw [if_pos hv]
                simp only [htab]
                rw [← hnx, ← hv, hvid, hsub, harith,
                  ROUND_UP_add_left (by norm_num), ← hsz, htl]
                simp [List.append_assoc]
              · simp only [wire_canonical_body]
                rw [if_pos hv]
                simp only [htab]
                simp only [List.length_append, ht6, htl, List.length_replicate]
                omega
            · rw [if_neg hsz] at h; cases h
          · rw [if_neg h32] at h; cases h
      · rw [if_neg hvid] at h; cases h
    · rw [if_neg h16] at h; cases h
  · rw [if_neg hv] at h
    split at h
    next htab => cases h
    next kind htab =>
      by_cases hsz : wire_len
          = ROUND_UP (4 + ofpact_content_size kind) OFPACT_ALIGNTO
      · rw [if_pos hsz] at h
        simp only [Except.ok.injEq] at h
        subst h
        have hge := ROUND_UP_ge (4 + ofpact_content_size kind)
        have hcs : ofpact_content_size kind ≤ body.length := by omega
        have htl := take_len_of_le hcs
        have hlt : opcode < NXAST_CODE_BASE := by
          have := ofpat10_table_lt htab
          simp only [NXAST_CODE_BASE]
          omega
        constructor
        · simp only [ofpact_to_openflow]
          rw [if_pos hlt]
          simp only [wire_canonical_body]
          rw [if_neg hv]
          simp only [htab, OFPACT_ALIGN]
          rw [← hsz, htl]
          simp [List.append_assoc]
        · simp only [wire_canonical_body]
          rw [if_neg hv]
          simp only [htab]
          simp only [List.length_append, htl, List.length_replicate]
          omega
      · rw [if_neg hsz] at h; cases h

lemma record_wf_not_end {a : ofpact} (h : ofpact_record_wf a = true) :
    a.type ≠ .END := by
  simp only [ofpact_record_wf, Bool.and_eq_true, bne_iff_ne, ne_eq] at h
  exact h.1.1

lemma record_wf_len {a : ofpact} (h : ofpact_record_wf a = true) :
    a.len = 4 + a.payload.length := by
  simp only [ofpact_record_wf, sizeof_struct_ofpact, Bool.and_eq_true,
    beq_iff_eq] at h
  exact h.1.2

/-! ### Decoder correctness: well-formed output and exact re-encoding -/

lemma ofpacts_decode_loop_ok_spec :
    ∀ (fuel : Nat) (bytes : List Nat), bytes.length ≤ fuel →
      ∀ recs, ofpacts_decode_loop fuel bytes = .ok recs →
        (∀ a ∈ recs, ofpact_record_wf a = true) ∧
        ((∀ b ∈ bytes, b < 256) →
          ofpacts_to_openflow recs = wire_canonicalize_loop fuel bytes ∧
          (wire_canonicalize_loop fuel bytes).length = bytes.length) := by
  intro fuel
  induction fuel with
  | zero =>
    intro bytes hlen recs h
    have hbn : bytes = [] := List.eq_nil_of_length_eq_zero (Nat.le_zero.mp hlen)
    subst hbn
    simp only [ofpacts_decode_loop, Except.ok.injEq] at h
    subst h
    exact ⟨by simp,
      fun _ => by simp [ofpacts_to_openflow, wire_canonicalize_loop]⟩
  | succ n ih =>
    intro bytes hlen recs h
    match bytes with
    | [] =>
      simp only [ofpacts_decode_loop, Except.ok.injEq] at h
      subst h
      exact ⟨by simp,
        fun _ => by simp [ofpacts_to_openflow, wire_canonicalize_loop]⟩
    | [b0] => simp [ofpacts_decode_loop] at h
    | [b0, b1] => simp [ofpacts_decode_loop] at h
    | [b0, b1, b2] => simp [ofpacts_decode_loop] at h
    | b0 :: b1 :: b2 :: b3 :: body =>
      rw [ofpacts_decode_loop] at h
      by_cases hc : (b2 * 256 + b3) % 8 = 0 ∧ 8 ≤ b2 * 256 + b3 ∧
          b2 * 256 + b3 ≤ 4 + body.length
      · rw [if_pos hc] at h
        split at h
        next e hentry => cases h
        next a hentry =>
          split at h
          next rest hrec =>
            simp only [Except.ok.injEq] at h
            subst h
            have hdrop_le : (body.drop (b2 * 256 + b3 - 4)).length ≤ n := by
              simp only [List.length_cons] at hlen
              simp only [List.length_drop]
              omega
            obtain ⟨ihwf, ihenc⟩ := ih _ hdrop_le rest hrec
            have hwfa := ofpacts_decode_entry_wf _ _ _ _ hc hentry
            constructor
            · intro x hx
              rcases List.mem_cons.mp hx with hx0 | hxm
              · subst hx0; exact hwfa
              · exact ihwf x hxm
            · intro hb
              have hb0 : b0 < 256 := hb _ (by simp)
              have hb1 : b1 < 256 := hb _ (by simp)
              have hb2 : b2 < 256 := hb _ (by simp)
              have hb3 : b3 < 256 := hb _ (by simp)
              have hbbody : ∀ x ∈ body, x < 256 := by
                intro x hx
                exact hb _ (by simp [hx])
              have hbrest : ∀ x ∈ body.drop (b2 * 256 + b3 - 4), x < 256 := by
                intro x hx
                exact hbbody _ (List.mem_of_mem_drop hx)
              obtain ⟨henc, hcanlen⟩ := ihenc hbrest
              obtain ⟨hencent, hbodylen⟩ :=
                ofpacts_decode_entry_encode _ _ _ _ hc hbbody hentry
              have hxend : a.type ≠ .END := record_wf_not_end hwfa
              rw [wire_canonicalize_loop, if_pos hc]
              simp only [hentry]
              constructor
              · simp only [ofpacts_to_openflow, hxend, if_neg, ite_false]
                rw [hencent, henc,
                  be16_pair b0 b1 hb0 hb1, be16_pair b2 b3 hb2 hb3]
                simp [List.append_assoc]
              · simp only [List.length_cons, List.length_append, hbodylen,
                  hcanlen, List.length_drop]
                omega
          next e hrec => cases h
      · rw [if_neg hc] at h; cases h

lemma ofpacts_decode_ok_spec (bytes : List Nat) (recs : List ofpact)
    (h : ofpacts_decode bytes = .ok recs) :
    (∀ a ∈ recs, ofpact_record_wf a = true) ∧
    ((∀ b ∈ bytes, b < 256) →
      ofpacts_to_openflow recs = wire_canonicalize bytes ∧
      (wire_canonicalize bytes).length = bytes.length) :=
  ofpacts_decode_loop_ok_spec bytes.length bytes le_rfl recs h

lemma ofpacts_to_openflow_append_end (recs : List ofpact)
    (h : ∀ a ∈ recs, a.type ≠ .END) :
    ofpacts_to_openflow (recs ++ [ofpact_end]) = ofpacts_to_openflow recs := by
  induction recs with
  | nil => simp [ofpacts_to_openflow, ofpact_end]
  | cons a rest ih =>
    have ha : a.type ≠ .END := h a (by simp)
    simp only [List.cons_append, ofpacts_to_openflow, ha, if_neg, ite_false,
      List.append_eq]
    rw [ih (fun b hb => h b (by simp [hb]))]

/-- C1: Round-trip.  For every syntactically valid wire action list
(one that `ofpacts_pull_openflow` accepts — base-dialect entries and
Nicira vendor-extension entries alike, including the variable-length
bundle, learn and note actions), re-encoding the decoded internal list
with `ofpacts_to_openflow` reproduces the input byte sequence up to
canonicalization of padding bytes: the re-encoded sequence is exactly
`wire_canonicalize` of the input (the function that keeps every entry
header, vendor sub-opcode and content byte in place and rewrites only
trailing padding bytes to zero), and in particular has the input's
length. -/
theorem ofpacts_openflow_roundtrip_upto_padding (bytes : List Nat)
    (hbytes : ∀ b ∈ bytes, b < 256) (acts : List ofpact)
    (hdec : ofpacts_pull_openflow bytes = .ok acts) :
    ofpacts_to_openflow acts = wire_canonicalize bytes ∧
    (wire_canonicalize bytes).length = bytes.length := by
  unfold ofpacts_pull_openflow at hdec
  split at hdec
  next recs hd =>
    simp only [Except.ok.injEq] at hdec
    subst hdec
    obtain ⟨hwf, henc⟩ := ofpacts_decode_ok_spec bytes recs hd
    obtain ⟨he, hl⟩ := henc hbytes
    rw [ofpacts_to_openflow_append_end recs
      (fun a ha => record_wf_not_end (hwf a ha))]
    exact ⟨he, hl⟩
  next e hd => cases hdec

/-- Witness for C1 at a concrete three-entry wire list: a Nicira
resubmit entry with nonzero garbage in its padding, a Nicira bundle
entry with one slave port and garbage padding after the slave list,
and a base-dialect set-vlan-vid entry with garbage padding — the
round-trip reproduces the input with all padding zero-filled. -/
theorem ofpacts_openflow_roundtrip_upto_padding_witness :
    ofpacts_to_openflow
        [{ type := .RESUBMIT, compat := 65537, len := 7, payload := [0, 5, 3] },
         { type := .BUNDLE, compat := 65548, len := 28,
           payload := [0, 0, 0, 1, 0, 0, 0, 0, 0, 0, 0, 1, 0, 0, 0, 0, 0, 0,
                       9, 9, 9, 9, 0, 7] },
         { type := .SET_VLAN_VID, compat := 1, len := 6, payload := [12, 34] },
         ofpact_end]
      = wire_canonicalize
          ([255, 255, 0, 16, 0, 0, 35, 32, 0, 1, 0, 5, 3, 99, 98, 97]
            ++ [255, 255, 0, 40, 0, 0, 35, 32, 0, 12,
                0, 0, 0, 1, 0, 0, 0, 0, 0, 0, 0, 1, 0, 0, 0, 0, 0, 0,
                9, 9, 9, 9, 0, 7, 1, 2, 3, 4, 5, 6]
            ++ [0, 1, 0, 8, 12, 34, 99, 99]) ∧
    (wire_canonicalize
        ([255, 255, 0, 16, 0, 0, 35, 32, 0, 1, 0, 5, 3, 99, 98, 97]
          ++ [255, 255, 0, 40, 0, 0, 35, 32, 0, 12,
              0, 0, 0, 1, 0, 0, 0, 0, 0, 0, 0, 1, 0, 0, 0, 0, 0, 0,
              9, 9, 9, 9, 0, 7, 1, 2, 3, 4, 5, 6]
          ++ [0, 1, 0, 8, 12, 34, 99, 99])).length
      = (([255, 255, 0, 16, 0, 0, 35, 32, 0, 1, 0, 5, 3, 99, 98, 97]
          ++ [255, 255, 0, 40, 0, 0, 35, 32, 0, 12,
              0, 0, 0, 1, 0, 0, 0, 0, 0, 0, 0, 1, 0, 0, 0, 0, 0, 0,
              9, 9, 9, 9, 0, 7, 1, 2, 3, 4, 5, 6]
          ++ [0, 1, 0, 8, 12, 34, 99, 99]) : List Nat).length :=
  ofpacts_openflow_roundtrip_upto_padding _ (by decide) _ rfl

lemma ofpact_offsets_mod (acts : List ofpact) :
    ∀ ofs, ofs % 8 = 0 → ∀ o ∈ ofpact_offsets ofs acts, o % 8 = 0 := by
  induction acts with
  | nil => simp [ofpact_offsets]
  | cons a rest ih =>
    intro ofs h0 o ho
    simp only [ofpact_offsets, List.mem_cons] at ho
    rcases ho with rfl | ho
    · exact h0
    · refine ih _ ?_ o ho
      simp only [ofpact_next, OFPACT_ALIGN]
      have := ROUND_UP_mod a.len
      simp only [OFPACT_ALIGNTO] at this ⊢
      omega

lemma ofpact_for_each_append_end (recs : List ofpact)
    (h : ∀ a ∈ recs, a.type ≠ .END) :
    ofpact_for_each (recs ++ [ofpact_end]) = recs := by
  induction recs with
  | nil => simp [ofpact_for_each, ofpact_end]
  | cons a rest ih =>
    have ha : a.type ≠ .END := h a (by simp)
    simp only [List.cons_append, ofpact_for_each, ha, if_neg, ite_false,
      List.append_eq]
    rw [ih (fun b hb => h b (by simp [hb]))]

/-- C3: All-or-nothing decoding.  Whenever `ofpacts_pull_openflow`
fails, the caller observes only the error and no partial action list
(the result is either one error or one list, never both); on success
the returned list satisfies the data-model invariants: it ends with
exactly one `OFPACT_END` sentinel, has no record after the sentinel,
and every earlier record is well-formed. -/
theorem ofpacts_pull_openflow_all_or_nothing (bytes : List Nat) :
    (∀ acts, ofpacts_pull_openflow bytes = .ok acts → ofpacts_wf acts = true) ∧
    (∀ e, ofpacts_pull_openflow bytes = .error e →
      ∀ acts, ofpacts_pull_openflow bytes ≠ .ok acts) := by
  constructor
  · intro acts h
    unfold ofpacts_pull_openflow at h
    split at h
    next recs hd =>
      simp only [Except.ok.injEq] at h
      subst h
      obtain ⟨hwf, _⟩ := ofpacts_decode_ok_spec bytes recs hd
      simp only [ofpacts_wf, List.getLast?_concat, List.dropLast_concat,
        beq_self_eq_true, Bool.true_and]
      rw [List.all_eq_true]
      exact fun a ha => hwf a ha
    next e hd => cases h
  · intro e he acts hok
    rw [he] at hok
    cases hok

/-- Witness for C3 at a concrete valid single-output wire list. -/
theorem ofpacts_pull_openflow_all_or_nothing_witness :
    ofpacts_wf
      [{ type := .OUTPUT, compat := 0, len := 8, payload := [0, 5, 0, 64] },
       ofpact_end] = true :=
  (ofpacts_pull_openflow_all_or_nothing [0, 0, 0, 8, 0, 5, 0, 64]).1 _ rfl

/-- C4: Alignment invariants.  In every decoded action list, each
record's `len` field counts the 4-byte header plus the content bytes
and excludes trailing padding; the record's occupied size used for
navigation is `round_up(len, 8)` exactly as `ofpact_next` computes it
(at least `len`, a multiple of 8, and the least such multiple); and
every record's start offset within the list is a multiple of 8. -/
theorem ofpacts_pull_openflow_alignment (bytes : List Nat) (acts : List ofpact)
    (h : ofpacts_pull_openflow bytes = .ok acts) :
    (∀ a ∈ acts, a.len = sizeof_struct_ofpact + a.payload.length ∧
      a.len ≤ OFPACT_ALIGN a.len ∧ OFPACT_ALIGN a.len % 8 = 0 ∧
      OFPACT_ALIGN a.len < a.len + 8 ∧
      ∀ ofs, ofpact_next ofs a = ofs + ROUND_UP a.len OFPACT_ALIGNTO) ∧
    (∀ o ∈ ofpact_offsets 0 acts, o % 8 = 0) := by
  constructor
  · intro a ha
    have hlen : a.len = sizeof_struct_ofpact + a.payload.length := by
      unfold ofpacts_pull_openflow at h
      split at h
      next recs hd =>
        simp only [Except.ok.injEq] at h
        subst h
        obtain ⟨hwf, _⟩ := ofpacts_decode_ok_spec bytes recs hd
        rcases List.mem_append.mp ha with hm | hm
        · exact record_wf_len (hwf a hm)
        · simp only [List.mem_singleton] at hm
          subst hm
          simp [ofpact_end, sizeof_struct_ofpact]
      next e hd => cases h
    refine ⟨hlen, ?_, ?_, ?_, fun ofs => rfl⟩
    · exact ROUND_UP_ge a.len
    · have := ROUND_UP_mod a.len
      simpa [OFPACT_ALIGN] using this
    · have := ROUND_UP_lt a.len
      simpa [OFPACT_ALIGN] using this
  · exact ofpact_offsets_mod acts 0 (by norm_num)

/-- Witness for C4 at the concrete single-output wire list. -/
theorem ofpacts_pull_openflow_alignment_witness :
    (∀ a ∈ [{ type := .OUTPUT, compat := 0, len := 8, payload := [0, 5, 0, 64] },
             ofpact_end],
      a.len = sizeof_struct_ofpact + a.payload.length ∧
      a.len ≤ OFPACT_ALIGN a.len ∧ OFPACT_ALIGN a.len % 8 = 0 ∧
      OFPACT_ALIGN a.len < a.len + 8 ∧
      ∀ ofs, ofpact_next ofs a = ofs + ROUND_UP a.len OFPACT_ALIGNTO) ∧
    (∀ o ∈ ofpact_offsets 0
        [{ type := .OUTPUT, compat := 0, len := 8, payload := [0, 5, 0, 64] },
         ofpact_end], o % 8 = 0) :=
  ofpacts_pull_openflow_alignment [0, 0, 0, 8, 0, 5, 0, 64] _ rfl

/-- C5: Sentinel termination.  Every decoded action list ends with
exactly one `OFPACT_END` sentinel and contains no record after it, so
the `OFPACT_FOR_EACH` iteration (stop at the first `OFPACT_END`)
visits exactly the non-sentinel records in insertion order. -/
theorem ofpacts_pull_openflow_sentinel (bytes : List Nat) (acts : List ofpact)
    (h : ofpacts_pull_openflow bytes = .ok acts) :
    acts = acts.dropLast ++ [ofpact_end] ∧
    (∀ a ∈ acts.dropLast, a.type ≠ .END) ∧
    ofpact_for_each acts = acts.dropLast := by
  unfold ofpacts_pull_openflow at h
  split at h
  next recs hd =>
    simp only [Except.ok.injEq] at h
    subst h
    obtain ⟨hwf, _⟩ := ofpacts_decode_ok_spec bytes recs hd
    have hne : ∀ a ∈ recs, a.type ≠ .END :=
      fun a ha => record_wf_not_end (hwf a ha)
    rw [List.dropLast_concat]
    exact ⟨rfl, hne, ofpact_for_each_append_end recs hne⟩
  next e hd => cases h

/-- Witness for C5 at the concrete single-output wire list. -/
theorem ofpacts_pull_openflow_sentinel_witness :
    ([{ type := .OUTPUT, compat := 0, len := 8, payload := [0, 5, 0, 64] },
      ofpact_end] : List ofpact)
      = [{ type := .OUTPUT, compat := 0, len := 8, payload := [0, 5, 0, 64] },
         ofpact_end].dropLast ++ [ofpact_end] ∧
    (∀ a ∈ ([{ type := .OUTPUT, compat := 0, len := 8, payload := [0, 5, 0, 64] },
             ofpact_end] : List ofpact).dropLast, a.type ≠ .END) ∧
    ofpact_for_each
        [{ type := .OUTPUT, compat := 0, len := 8, payload := [0, 5, 0, 64] },
         ofpact_end]
      = [{ type := .OUTPUT, compat := 0, len := 8, payload := [0, 5, 0, 64] },
         ofpact_end].dropLast :=
  ofpacts_pull_openflow_sentinel [0, 0, 0, 8, 0, 5, 0, 64] _ rfl

/-- C6: Truncated input is rejected.  Decoding an input whose first
entry claims a length exceeding the remaining bytes, or a length that
is not 8-byte aligned, yields `BadActionLength`; an input too short to
hold even the 4-byte entry header is rejected the same way. -/
theorem ofpacts_pull_openflow_bad_len (b0 b1 b2 b3 : Nat) (body : List Nat)
    (h : 4 + body.length < b2 * 256 + b3 ∨ (b2 * 256 + b3) % 8 ≠ 0) :
    ofpacts_pull_openflow (b0 :: b1 :: b2 :: b3 :: body)
        = .error .OFPERR_OFPBAC_BAD_LEN ∧
    ∀ short : List Nat, 0 < short.length → short.length < 4 →
      ofpacts_pull_openflow short = .error .OFPERR_OFPBAC_BAD_LEN := by
  constructor
  · have hdec : ofpacts_decode (b0 :: b1 :: b2 :: b3 :: body)
        = .error .OFPERR_OFPBAC_BAD_LEN := by
      unfold ofpacts_decode
      simp only [List.length_cons]
      rw [ofpacts_decode_loop]
      rw [if_neg (by omega)]
    unfold ofpacts_pull_openflow
    rw [hdec]
  · intro short h1 h4
    match short with
    | [c0] => rfl
    | [c0, c1] => rfl
    | [c0, c1, c2] => rfl
    | [] => simp at h1
    | c0 :: c1 :: c2 :: c3 :: rest => simp [List.length_cons] at h4; omega

/-- Witness for C6 at a concrete truncated entry (declared length 12,
only 6 bytes present). -/
theorem ofpacts_pull_openflow_bad_len_witness :
    ofpacts_pull_openflow [0, 0, 0, 12, 0, 5] = .error .OFPERR_OFPBAC_BAD_LEN :=
  (ofpacts_pull_openflow_bad_len 0 0 0 12 [0, 5] (by decide)).1

lemma record_equal_iff (a b : ofpact) :
    ofpact_record_equal a b = true ↔
      ofpact_strip_compat a = ofpact_strip_compat b := by
  simp only [ofpact_record_equal, ofpact_strip_compat, Bool.and_eq_true,
    beq_iff_eq, Prod.mk.injEq]
  tauto

lemma zip_all_record_equal_iff :
    ∀ ra rb : List ofpact,
      ((ra.length == rb.length)
        && (List.zip ra rb).all (fun p => ofpact_record_equal p.1 p.2)) = true
      ↔ ra.map ofpact_strip_compat = rb.map ofpact_strip_compat := by
  intro ra
  induction ra with
  | nil => intro rb; cases rb <;> simp
  | cons a ra ih =>
    intro rb
    cases rb with
    | nil => simp
    | cons b rb =>
      have h1 := record_equal_iff a b
      have h2 := ih rb
      simp only [List.length_cons, List.zip_cons_cons, List.all_cons,
        Bool.and_eq_true, beq_iff_eq, List.map_cons, List.cons.injEq] at h2 ⊢
      constructor
      · rintro ⟨hlen, hab, hall⟩
        exact ⟨h1.mp hab, h2.mp ⟨by omega, hall⟩⟩
      · rintro ⟨hab, hrest⟩
        have := h2.mpr hrest
        exact ⟨by omega, h1.mpr hab, this.2⟩

/-- C2: Structural equality.  `ofpacts_equal` returns true iff the two
lists have the same number of non-sentinel records and the records at
every corresponding position agree on kind, content length and content
bytes — equivalently, iff the compat-erased views of the visited
records coincide — so two lists whose records differ only in which
wire dialect produced them (the `compat` tag) are equal, and swapping
two records with different compat-erased views in an otherwise-equal
list makes the result false. -/
theorem ofpacts_equal_spec :
    (∀ a b : List ofpact,
      ofpacts_equal a b = true ↔
        (ofpact_for_each a).map ofpact_strip_compat
          = (ofpact_for_each b).map ofpact_strip_compat) ∧
    (∀ pre mid post : List ofpact, ∀ x y : ofpact,
      (∀ r ∈ pre ++ [x] ++ mid ++ [y] ++ post, r.type ≠ .END) →
      ofpact_strip_compat x ≠ ofpact_strip_compat y →
      ofpacts_equal (pre ++ [x] ++ mid ++ [y] ++ post ++ [ofpact_end])
          (pre ++ [y] ++ mid ++ [x] ++ post ++ [ofpact_end]) = false) := by
  have hiff : ∀ a b : List ofpact,
      ofpacts_equal a b = true ↔
        (ofpact_for_each a).map ofpact_strip_compat
          = (ofpact_for_each b).map ofpact_strip_compat := by
    intro a b
    exact zip_all_record_equal_iff (ofpact_for_each a) (ofpact_for_each b)
  refine ⟨hiff, ?_⟩
  intro pre mid post x y hne hxy
  rw [Bool.eq_false_iff]
  intro heq
  have h1 := (hiff _ _).mp heq
  have hfx : ofpact_for_each (pre ++ [x] ++ mid ++ [y] ++ post ++ [ofpact_end])
      = pre ++ [x] ++ mid ++ [y] ++ post := by
    have := ofpact_for_each_append_end (pre ++ [x] ++ mid ++ [y] ++ post) hne
    simpa [List.append_assoc] using this
  have hney : ∀ r ∈ pre ++ [y] ++ mid ++ [x] ++ post, r.type ≠ .END := by
    intro r hr
    apply hne
    simp only [List.append_assoc, List.mem_append, List.mem_singleton] at hr ⊢
    tauto
  have hfy : ofpact_for_each (pre ++ [y] ++ mid ++ [x] ++ post ++ [ofpact_end])
      = pre ++ [y] ++ mid ++ [x] ++ post := by
    have := ofpact_for_each_append_end (pre ++ [y] ++ mid ++ [x] ++ post) hney
    simpa [List.append_assoc] using this
  rw [hfx, hfy] at h1
  simp only [List.append_assoc, List.singleton_append, List.map_append,
    List.map_cons] at h1
  have h2 := List.append_cancel_left h1
  injection h2 with hh hrest
  exact hxy hh

/-- Witness for C2: swapping an output record and a vlan record makes
equality false; the theorem is applied at empty surrounding context. -/
theorem ofpacts_equal_spec_witness :
    ofpacts_equal
        [{ type := .OUTPUT, compat := 0, len := 8, payload := [0, 5, 0, 64] },
         { type := .SET_VLAN_VID, compat := 1, len := 6, payload := [12, 34] },
         ofpact_end]
        [{ type := .SET_VLAN_VID, compat := 1, len := 6, payload := [12, 34] },
         { type := .OUTPUT, compat := 0, len := 8, payload := [0, 5, 0, 64] },
         ofpact_end] = false :=
  ofpacts_equal_spec.2 [] [] []
    { type := .OUTPUT, compat := 0, len := 8, payload := [0, 5, 0, 64] }
    { type := .SET_VLAN_VID, compat := 1, len := 6, payload := [12, 34] }
    (by decide) (by decide)

lemma ofpacts_check_append_ok (mp : Nat) (pre rest : List ofpact)
    (hpre : ∀ a ∈ pre, a.type ≠ .END ∧ ofpact_check mp a = .ok ()) :
    ofpacts_check (pre ++ rest) mp = ofpacts_check rest mp := by
  induction pre with
  | nil => rfl
  | cons a pre ih =>
    obtain ⟨ha1, ha2⟩ := hpre a (by simp)
    simp only [List.cons_append, ofpacts_check, ha1, if_neg, ite_false, ha2]
    exact ih (fun b hb => hpre b (by simp [hb]))

lemma mk_output_port (p m : Nat) (hp : p < 65536) :
    ofpact_output_port (mk_output p m) = p := by
  simp only [ofpact_output_port, mk_output, get16, be16, List.cons_append,
    List.getD_cons_zero, List.getD_cons_succ]
  omega

lemma ofpact_check_mk_output (mp p m : Nat) :
    ofpact_check mp (mk_output p m)
      = if ofpact_output_port (mk_output p m) < mp
          || ofp_port_is_reserved (ofpact_output_port (mk_output p m))
        then .ok () else .error .OFPERR_OFPBAC_BAD_OUT_PORT := rfl

lemma ofpacts_check_cons_not_end (mp : Nat) (a : ofpact) (rest : List ofpact)
    (ha : a.type ≠ .END) :
    ofpacts_check (a :: rest) mp
      = match ofpact_check mp a with
        | .ok _ => ofpacts_check rest mp
        | .error e => .error e := by
  simp [ofpacts_check, ha]

/-- C7: Validator port bound.  For every surrounding action list and
every in-range port bound (positive, representable, and itself not a
recognized reserved logical port), `ofpacts_check` rejects with
`BadOutPort` an output action whose destination port equals
`max_ports` wherever it occurs after already-legal records, while a
lone output action whose destination port equals `max_ports - 1`
passes both the per-record rule and the whole-list check. -/
theorem ofpacts_check_output_port_bound (max_ports max_len : Nat)
    (pre post : List ofpact) (h1 : 0 < max_ports)
    (h2 : max_ports < OFPP_FIRST_RESERVED)
    (hpre : ∀ a ∈ pre, a.type ≠ .END ∧ ofpact_check max_ports a = .ok ()) :
    ofpacts_check (pre ++ mk_output max_ports max_len :: post) max_ports
        = .error .OFPERR_OFPBAC_BAD_OUT_PORT ∧
    ofpact_check max_ports (mk_output (max_ports - 1) max_len) = .ok () ∧
    ofpacts_check [mk_output (max_ports - 1) max_len, ofpact_end] max_ports
        = .ok () := by
  have h2n : max_ports < 65528 := by
    simpa [OFPP_FIRST_RESERVED] using h2
  have hnres : ofp_port_is_reserved max_ports = false := by
    rw [Bool.eq_false_iff]
    intro hcontra
    simp only [ofp_port_is_reserved, OFPP_FIRST_RESERVED, Bool.and_eq_true,
      decide_eq_true_eq] at hcontra
    omega
  have hrej : ofpact_check max_ports (mk_output max_ports max_len)
      = .error .OFPERR_OFPBAC_BAD_OUT_PORT := by
    rw [ofpact_check_mk_output, mk_output_port max_ports max_len (by omega)]
    rw [if_neg (by simp [hnres])]
  have hacc : ofpact_check max_ports (mk_output (max_ports - 1) max_len)
      = .ok () := by
    rw [ofpact_check_mk_output, mk_output_port (max_ports - 1) max_len (by omega)]
    rw [if_pos (by
      simp only [Bool.or_eq_true, decide_eq_true_eq]
      exact Or.inl (by omega))]
  refine ⟨?_, hacc, ?_⟩
  · rw [ofpacts_check_append_ok max_ports pre _ hpre]
    rw [ofpacts_check_cons_not_end max_ports _ _ (by simp [mk_output])]
    rw [hrej]
  · rw [ofpacts_check_cons_not_end max_ports _ _ (by simp [mk_output])]
    rw [hacc]
    rfl

/-- C8: Builder length-fixup discipline.  Appending a variable-length
action's fixed part of size `OFPACT_<ENUM>_RAW_SIZE` with
`ofpact_put_<ENUM>`, then appending `n` trailing bytes to the buffer,
then running `ofpact_update_len`, leaves the record's `len` field equal
to the fixed-part size plus the appended byte count. -/
theorem ofpact_update_len_after_put (off : ofpact_struct → ofpact_member → Nat)
    (sz : ofpact_struct → Nat) (e : ofpact_def) (buf : ofpbuf) (n : Nat) :
    (ofpact_update_len (ofpbuf_put (ofpact_put_ENUM off sz e buf) n)).act_len
      = OFPACT_RAW_SIZE off sz e + n := by
  simp only [ofpact_update_len, ofpbuf_put, ofpact_put_ENUM, ofpact_put]
  omega

/-- C9: Registry completeness and sizes.  The `OFPACTS` table has
exactly one entry per action kind, and for any struct layout in which
the `ofpact` header member sits at offset 0 (as the header's build
assertion requires) and every flexible array member sits at a positive
offset, `OFPACT_<ENUM>_RAW_SIZE` equals the flexible member's offset
for variable-length kinds and the full structure size for fixed-length
kinds, while `OFPACT_<ENUM>_SIZE` is that minimum rounded up to a
multiple of 8. -/
theorem DEFINE_OFPACT_registry_spec
    (off : ofpact_struct → ofpact_member → Nat) (sz : ofpact_struct → Nat)
    (hoff0 : ∀ s, off s .ofpact = 0)
    (hflex : ∀ s m, m ≠ .ofpact → 0 < off s m) :
    (∀ k : ofpact_type, (OFPACTS.filter (fun e => e.enum == k)).length = 1) ∧
    (∀ e ∈ OFPACTS,
      (e.member = .ofpact → OFPACT_RAW_SIZE off sz e = sz e.struct_name) ∧
      (e.member ≠ .ofpact →
        OFPACT_RAW_SIZE off sz e = off e.struct_name e.member) ∧
      OFPACT_SIZE off sz e
        = ROUND_UP (OFPACT_RAW_SIZE off sz e) OFPACT_ALIGNTO) := by
  constructor
  · intro k
    cases k <;> rfl
  · intro e _
    refine ⟨?_, ?_, rfl⟩
    · intro hm
      simp only [OFPACT_RAW_SIZE, hm, hoff0 e.struct_name, ne_eq,
        not_true_eq_false, ite_false, if_neg]
    · intro hm
      have hpos := hflex e.struct_name e.member hm
      simp only [OFPACT_RAW_SIZE]
      rw [if_pos (by omega)]

/-- Witness for C9: the layout hypotheses hold of the sample layout;
the bundle entry is unique in the table and its raw size is the
flexible-member offset. -/
theorem DEFINE_OFPACT_registry_spec_witness :
    (OFPACTS.filter (fun e => e.enum == ofpact_type.BUNDLE)).length = 1 ∧
    OFPACT_RAW_SIZE sample_offsetof sample_sizeof
        ⟨.BUNDLE, .ofpact_bundle, .slaves⟩
      = sample_offsetof .ofpact_bundle .slaves :=
  ⟨(DEFINE_OFPACT_registry_spec sample_offsetof sample_sizeof (fun _ => rfl)
      (by intro s m hm; cases m <;> simp_all [sample_offsetof])).1 _,
   ((DEFINE_OFPACT_registry_spec sample_offsetof sample_sizeof (fun _ => rfl)
      (by intro s m hm; cases m <;> simp_all [sample_offsetof])).2
      ⟨.BUNDLE, .ofpact_bundle, .slaves⟩ (by decide)).2.1 (by decide)⟩

/-- C10: Typed accessor safety.  `ofpact_get_<ENUM>` checks that the
record's kind matches before viewing it as the kind's payload
structure; under the precondition that the kind matches, the assertion
branch is unreachable and the accessor returns the record. -/
theorem ofpact_get_ENUM_matching (k : ofpact_type) (a : ofpact)
    (h : a.type = k) :
    ofpact_get_ENUM k a = some a ∧ (ofpact_get_ENUM k a).isSome = true := by
  simp [ofpact_get_ENUM, h]

/-- Witness for C10 at a concrete output record. -/
theorem ofpact_get_ENUM_matching_witness :
    ofpact_get_ENUM .OUTPUT (mk_output 5 0) = some (mk_output 5 0) ∧
    (ofpact_get_ENUM .OUTPUT (mk_output 5 0)).isSome = true :=
  ofpact_get_ENUM_matching .OUTPUT (mk_output 5 0) rfl

/-- Witness for C7 at `max_ports = 5` with empty surrounding list. -/
theorem ofpacts_check_output_port_bound_witness :
    ofpacts_check ([] ++ mk_output 5 0 :: []) 5
        = .error .OFPERR_OFPBAC_BAD_OUT_PORT ∧
    ofpact_check 5 (mk_output (5 - 1) 0) = .ok () ∧
    ofpacts_check [mk_output (5 - 1) 0, ofpact_end] 5 = .ok () :=
  ofpacts_check_output_port_bound 5 0 [] [] (by decide) (by decide) (by simp)
